import Mathlib

/-!
Verification development for the Juju GUI server utility functions
(`server/guiserver/utils.py`): the path-to-URL translator
`get_juju_api_url`, the JSON decoding helper `json_decode_dict` and the
WebSocket-to-HTTP URL converter `ws_to_http`.

Python strings are modelled as `List Char`.  The regular expression
engine is modelled only for the class of patterns that
`get_juju_api_url` actually builds: a source template whose literal
characters are regex-safe (no regex metacharacters) turns, after the
three textual `replace` calls, into a sequence of literal characters,
greedy `(?P<server>.*)` / `(?P<uuid>.*)` groups (any character except a
newline, longest first, as in Python) and greedy `(?P<port>\d+)` groups
(one or more ASCII decimal digits, longest first).  Templates outside
this class (including templates in which the same group name would be
defined twice, which makes Python's `re.compile` raise) are mapped to
`none` by the template parser, and every theorem about the translator
carries the corresponding `parseSourceTemplate … = some …` premise.

`str.format` is modelled for target templates built from literal text,
the escapes `{{`/`}}` and the simple replacement fields of the three
recognised names; any other field (unknown names, conversions, format
specs, unterminated fields, stray braces) yields `none`, which models
the exception Python raises (`KeyError`/`ValueError`/`IndexError`).
`Option` results model raised exceptions throughout: `none` is an
exception escaping the function, `some` a returned value.

`tornado.escape.json_decode` is an external dependency, so
`json_decode_dict` is parameterised by the decoder.  `urlparse.urlsplit`
is modelled after the Python 2.7 standard library (scheme extraction
over the scheme character set with the trailing-port check, network
location after `//` up to the first `/`, `?` or `#` with the
unbalanced-IPv6-bracket `ValueError`, then fragment and query
splitting); only the behaviour-neutral parse cache is omitted.
-/

namespace Guiserver

/-- Named capture groups appearing in the patterns built by
`get_juju_api_url`. -/
inductive GName where
  | server
  | port
  | uuid
deriving DecidableEq

/-- The kind of regex fragment substituted for a placeholder:
`(?P<name>.*)` (greedy dot-star) or `(?P<name>\d+)` (greedy digits). -/
inductive GKind where
  | dotStar
  | digitPlus
deriving DecidableEq

/-- One element of a compiled pattern: a literal character or a named
capture group. -/
inductive TItem where
  | lit (c : Char)
  | grp (g : GName) (k : GKind)
deriving DecidableEq

/-- The result of `match.groupdict()`: for each recognised group name,
the captured substring, or `none` when the pattern defines no group of
that name. -/
structure Caps where
  server : Option (List Char)
  port : Option (List Char)
  uuid : Option (List Char)
deriving DecidableEq

def Caps.empty : Caps := ⟨none, none, none⟩

def getCap : GName → Caps → Option (List Char)
  | GName.server, c => c.server
  | GName.port, c => c.port
  | GName.uuid, c => c.uuid

def setCap : GName → List Char → Caps → Caps
  | GName.server, v, c => { c with server := some v }
  | GName.port, v, c => { c with port := some v }
  | GName.uuid, v, c => { c with uuid := some v }

/-- Characters of a source template that stand for themselves inside a
regular expression.  Regex metacharacters are excluded: a template
containing them falls outside the modelled pattern class. -/
def isSafeLit (c : Char) : Bool :=
  !(c == '$' || c == '(' || c == ')' || c == '*' || c == '+' || c == '?' ||
    c == '.' || c == '[' || c == ']' || c == '\\' || c == '^' || c == '|' ||
    c == '{' || c == '}')

/-- Prefix test on character lists, with a reduction behaviour suited
to definitional unfolding (it inspects its first argument first). -/
def litPrefix : List Char → List Char → Bool
  | [], _ => true
  | _ :: _, [] => false
  | p :: ps, c :: cs => p == c && litPrefix ps cs

/-- Parse a source template into pattern items, mirroring the textual
substitutions performed by `get_juju_api_url` (lines 76-79 of
`utils.py`): each occurrence of `$server`, `$port`, `$uuid` becomes the
corresponding capture group and every other character is a literal.
The fuel argument only forces structural recursion; it is called with
the length of the list, which is always sufficient because each step
consumes at least one character. -/
def parseTemplateF : Nat → List Char → Option (List TItem)
  | 0, l => match l with
    | [] => some []
    | _ :: _ => none
  | _ + 1, [] => some []
  | fuel + 1, c :: rest =>
    if c = '$' then
      if litPrefix ("server".data) rest then
        Option.map (fun its => TItem.grp GName.server GKind.dotStar :: its)
          (parseTemplateF fuel (rest.drop 6))
      else if litPrefix ("port".data) rest then
        Option.map (fun its => TItem.grp GName.port GKind.digitPlus :: its)
          (parseTemplateF fuel (rest.drop 4))
      else if litPrefix ("uuid".data) rest then
        Option.map (fun its => TItem.grp GName.uuid GKind.dotStar :: its)
          (parseTemplateF fuel (rest.drop 4))
      else none
    else if isSafeLit c then
      Option.map (fun its => TItem.lit c :: its) (parseTemplateF fuel rest)
    else none

/-- Number of capture groups named `g` in a pattern. -/
def countGrp (g : GName) (its : List TItem) : Nat :=
  its.countP (fun it => match it with
    | TItem.grp g' _ => g' == g
    | _ => false)

/-- Compile a source template to pattern items.  A duplicated group
name makes Python's `re.compile` raise, so such templates are outside
the modelled class as well. -/
def parseSourceTemplate (st : List Char) : Option (List TItem) :=
  match parseTemplateF st.length st with
  | none => none
  | some its =>
    if countGrp GName.server its ≤ 1 ∧ countGrp GName.port its ≤ 1 ∧
        countGrp GName.uuid its ≤ 1 then
      some its
    else none

/-- Maximal number of characters `.` can consume at the head of `s`:
in Python, `.` matches any character except a newline. -/
def maxDot (s : List Char) : Nat := (s.takeWhile (fun c => !(c == '\n'))).length

/-- Maximal number of characters `\d` can consume at the head of `s`. -/
def maxDigit (s : List Char) : Nat := (s.takeWhile Char.isDigit).length

/-- Greedy backtracking for one capture group: try capturing `k`
characters of `s` first, then shorter prefixes, down to `minLen`
(`0` for `.*`, `1` for `\d+`); `next` matches the rest of the pattern
against the rest of the input, exactly as Python's engine backtracks a
greedy quantifier from the longest attempt downwards. -/
def tryG (g : GName) (next : List Char → Option Caps) (s : List Char)
    (minLen : Nat) : Nat → Option Caps
  | 0 =>
    if minLen = 0 then
      Option.map (fun caps => setCap g [] caps) (next s)
    else none
  | k + 1 =>
    if k + 1 < minLen then none
    else
      match next (s.drop (k + 1)) with
      | some caps => some (setCap g (s.take (k + 1)) caps)
      | none => tryG g next s minLen k

/-- Match a pattern at the start of the input (the attempt `re.search`
makes at one offset).  Remaining input after the pattern is ignored, as
in Python.  Group captures are recorded in the returned `Caps`. -/
def reMatch : List TItem → List Char → Option Caps
  | [], _ => some Caps.empty
  | TItem.lit _ :: _, [] => none
  | TItem.lit c :: its, x :: xs => if x = c then reMatch its xs else none
  | TItem.grp g GKind.dotStar :: its, s => tryG g (reMatch its) s 0 (maxDot s)
  | TItem.grp g GKind.digitPlus :: its, s => tryG g (reMatch its) s 1 (maxDigit s)

/-- `re.search`: try to match at offset 0, then at offset 1, and so on;
the leftmost offset admitting a match wins. -/
def reSearch (its : List TItem) : List Char → Option Caps
  | [] => reMatch its []
  | x :: xs =>
    match reMatch its (x :: xs) with
    | some caps => some caps
    | none => reSearch its xs

/-- A segment of a simple target template: literal character or
replacement field. -/
inductive TSeg where
  | lit (c : Char)
  | ph (g : GName)
deriving DecidableEq

/-- The characters following `{` in the field `{server}`. -/
def serverField : List Char := ['s', 'e', 'r', 'v', 'e', 'r', '}']

/-- The characters following `{` in the field `{port}`. -/
def portField : List Char := ['p', 'o', 'r', 't', '}']

/-- The characters following `{` in the field `{uuid}`. -/
def uuidField : List Char := ['u', 'u', 'i', 'd', '}']

/-- Parse a simple target template, the spec's reading of
"targetTemplate with named placeholders": literal text (without braces)
interleaved with the fields `{server}`, `{port}`, `{uuid}`. -/
def parseTargetF : Nat → List Char → Option (List TSeg)
  | 0, l => match l with
    | [] => some []
    | _ :: _ => none
  | _ + 1, [] => some []
  | fuel + 1, c :: rest =>
    if c = '{' then
      if litPrefix serverField rest then
        Option.map (fun segs => TSeg.ph GName.server :: segs)
          (parseTargetF fuel (rest.drop 7))
      else if litPrefix portField rest then
        Option.map (fun segs => TSeg.ph GName.port :: segs)
          (parseTargetF fuel (rest.drop 5))
      else if litPrefix uuidField rest then
        Option.map (fun segs => TSeg.ph GName.uuid :: segs)
          (parseTargetF fuel (rest.drop 5))
      else none
    else if c = '}' then none
    else Option.map (fun segs => TSeg.lit c :: segs) (parseTargetF fuel rest)

def parseTarget (l : List Char) : Option (List TSeg) := parseTargetF l.length l

/-- `target_template.format(**match.groupdict())`, modelled for target
templates made of literal text, the escapes `{{` and `}}`, and the
three recognised fields.  A field naming a group the pattern did not
define is a `KeyError`; a stray or unterminated brace is a
`ValueError`; both are modelled by `none` (an exception, not a returned
URL).  Fields with conversions or format specs are outside the modelled
class and also map to `none`. -/
def pyFormatF : Nat → Caps → List Char → Option (List Char)
  | 0, _, l => match l with
    | [] => some []
    | _ :: _ => none
  | _ + 1, _, [] => some []
  | fuel + 1, caps, c :: rest =>
    if c = '{' then
      if rest.head? = some '{' then
        Option.map (fun out => '{' :: out) (pyFormatF fuel caps rest.tail)
      else if litPrefix serverField rest then
        match getCap GName.server caps with
        | some v => Option.map (fun out => v ++ out) (pyFormatF fuel caps (rest.drop 7))
        | none => none
      else if litPrefix portField rest then
        match getCap GName.port caps with
        | some v => Option.map (fun out => v ++ out) (pyFormatF fuel caps (rest.drop 5))
        | none => none
      else if litPrefix uuidField rest then
        match getCap GName.uuid caps with
        | some v => Option.map (fun out => v ++ out) (pyFormatF fuel caps (rest.drop 5))
        | none => none
      else none
    else if c = '}' then
      if rest.head? = some '}' then
        Option.map (fun out => '}' :: out) (pyFormatF fuel caps rest.tail)
      else none
    else Option.map (fun out => c :: out) (pyFormatF fuel caps rest)

def pyFormat (caps : Caps) (l : List Char) : Option (List Char) :=
  pyFormatF l.length caps l

/-- Specification-side substitution: the target template segments with
each placeholder replaced by its captured substring, `none` when a
referenced group has no capture. -/
def substSegs (caps : Caps) : List TSeg → Option (List Char)
  | [] => some []
  | TSeg.lit c :: segs => Option.map (fun out => c :: out) (substSegs caps segs)
  | TSeg.ph g :: segs =>
    match getCap g caps with
    | none => none
    | some v => Option.map (fun out => v ++ out) (substSegs caps segs)

/-- The literal text of a placeholder token as it appears in a target
template. -/
def phText : GName → List Char
  | GName.server => "{server}".data
  | GName.port => "{port}".data
  | GName.uuid => "{uuid}".data

/-- Declarative matching: the pattern items match some prefix of the
input, capturing the listed substrings.  This is the set of possible
splits, independent of the engine's greedy, leftmost strategy. -/
inductive MatchSplit : List TItem → List Char → Caps → Prop where
  | nil (s : List Char) : MatchSplit [] s Caps.empty
  | lit (c : Char) (its : List TItem) (s : List Char) (caps : Caps) :
      MatchSplit its s caps → MatchSplit (TItem.lit c :: its) (c :: s) caps
  | dotStar (g : GName) (its : List TItem) (pre suf : List Char) (caps : Caps) :
      (∀ c ∈ pre, c ≠ '\n') → MatchSplit its suf caps →
      MatchSplit (TItem.grp g GKind.dotStar :: its) (pre ++ suf) (setCap g pre caps)
  | digitPlus (g : GName) (its : List TItem) (pre suf : List Char) (caps : Caps) :
      pre ≠ [] → (∀ c ∈ pre, c.isDigit = true) → MatchSplit its suf caps →
      MatchSplit (TItem.grp g GKind.digitPlus :: its) (pre ++ suf) (setCap g pre caps)

/-- `get_juju_api_url` (utils.py lines 65-84): build the pattern from
the source template, search for it in the path, return the default on a
non-match, and otherwise format the target template with the captured
groups.  The result is `none` when an exception is raised (template
formatting error) or when the source template is outside the modelled
pattern class (where Python's behaviour involves arbitrary regex
syntax). -/
def get_juju_api_url (path source_template target_template default : String) :
    Option String :=
  match parseSourceTemplate source_template.data with
  | none => none
  | some its =>
    match reSearch its path.data with
    | none => some default
    | some caps => Option.map String.mk (pyFormat caps target_template.data)

/-- `str.replace(pat, rep)`: replace non-overlapping occurrences from
left to right.  Fuel-driven structural recursion; called with the
length of the string, which suffices because each step consumes at
least one character. -/
def replFuel (pat rep : List Char) : Nat → List Char → List Char
  | 0, l => l
  | _ + 1, [] => []
  | fuel + 1, c :: tl =>
    if !pat.isEmpty && litPrefix pat (c :: tl) then
      rep ++ replFuel pat rep fuel ((c :: tl).drop pat.length)
    else c :: replFuel pat rep fuel tl

def str_replace (l pat rep : List Char) : List Char := replFuel pat rep l.length l

/-- The pattern string built by `get_juju_api_url` before compilation:
the three successive `replace` calls of utils.py lines 76-79, at the
level of raw text. -/
def buildPattern (source_template : List Char) : List Char :=
  str_replace
    (str_replace
      (str_replace source_template ("$server".data) ("(?P<server>.*)".data))
      ("$port".data) ("(?P<port>\\d+)".data))
    ("$uuid".data) ("(?P<uuid>.*)".data)

/-- JSON values, the possible results of `tornado.escape.json_decode`. -/
inductive JVal where
  | null
  | bool (b : Bool)
  | num (n : Int)
  | str (s : String)
  | arr (elems : List JVal)
  | obj (fields : List (String × JVal))

/-- `isinstance(data, collections.Mapping)`: only a decoded JSON object
is dict-like. -/
def JVal.isObj : JVal → Bool
  | JVal.obj _ => true
  | _ => false

/-- `json_decode_dict` (utils.py lines 98-114), parameterised by the
external JSON decoder (`none` models a raised `ValueError`): a decode
failure logs a warning and returns `None`; a decoded value that is not
dict-like logs a warning and returns `None`; otherwise the decoded
mapping is returned. -/
def json_decode_dict (json_decode : String → Option JVal) (message : String) :
    Option (List (String × JVal)) :=
  match json_decode message with
  | none => none
  | some data =>
    match data with
    | JVal.obj fields => some fields
    | _ => none

/-- The result of `urlparse.urlsplit`. -/
structure SplitResult where
  scheme : List Char
  netloc : List Char
  path : List Char
  query : List Char
  fragment : List Char
deriving DecidableEq

/-- Characters allowed in a URL scheme (`urlparse.scheme_chars`). -/
def isSchemeChar (c : Char) : Bool :=
  c.isAlpha || c.isDigit || c == '+' || c == '-' || c == '.'

/-- A character that ends the network location part. -/
def notNetlocEnd (c : Char) : Bool := !(c == '/' || c == '?' || c == '#')

/-- Split a list at the first occurrence of `sep`; `none` when `sep`
does not occur. -/
def splitOnFirst (sep : Char) : List Char → Option (List Char × List Char)
  | [] => none
  | c :: rest =>
    if c = sep then some ([], rest)
    else Option.map (fun p => (c :: p.1, p.2)) (splitOnFirst sep rest)

/-- `urlparse.urlsplit` of the Python 2.7 standard library: lowercased
scheme before the first `:` when all its characters are scheme
characters and the remainder is not a bare port number, network
location after `//` up to the first `/`, `?` or `#` — raising
`ValueError("Invalid IPv6 URL")`, modelled as `none`, when the network
location contains `[` without `]` or `]` without `[` — then the
fragment after the first `#` and the query after the first `?`.  The
parse cache is not modelled (it is behaviour-neutral). -/
def urlsplit (url : List Char) : Option SplitResult :=
  let schemeRest : List Char × List Char :=
    match splitOnFirst ':' url with
    | some (before, after) =>
      if !before.isEmpty && before.all isSchemeChar &&
          (after.isEmpty || after.any (fun c => !c.isDigit)) then
        (before.map Char.toLower, after)
      else ([], url)
    | none => ([], url)
  let r1 := schemeRest.2
  let netlocRest : List Char × List Char :=
    if r1.take 2 = ['/', '/'] then
      ((r1.drop 2).takeWhile notNetlocEnd, (r1.drop 2).dropWhile notNetlocEnd)
    else ([], r1)
  if ('[' ∈ netlocRest.1 ∧ ']' ∉ netlocRest.1) ∨
      (']' ∈ netlocRest.1 ∧ '[' ∉ netlocRest.1) then
    none
  else
    let fragSplit : List Char × List Char :=
      match splitOnFirst '#' netlocRest.2 with
      | some p => p
      | none => (netlocRest.2, [])
    let querySplit : List Char × List Char :=
      match splitOnFirst '?' fragSplit.1 with
      | some p => p
      | none => (fragSplit.1, [])
    some ⟨schemeRest.1, netlocRest.1, querySplit.1, querySplit.2, fragSplit.2⟩

/-- The dictionary literal `{'ws': 'http', 'wss': 'https'}` of
`ws_to_http`; `none` models the `KeyError` raised on any other key. -/
def wsSchemeMap (scheme : List Char) : Option (List Char) :=
  if scheme = "ws".data then some ("http".data)
  else if scheme = "wss".data then some ("https".data)
  else none

/-- The outcome of `ws_to_http`: a returned URL, or one of the two
exceptions the function can raise. -/
inductive WsResult where
  | ok (url : List Char)
  | valueError
  | keyError
deriving DecidableEq

/-- `ws_to_http` (utils.py lines 145-149): split the URL (which can
raise `ValueError` on an invalid IPv6 network location), map the
scheme through the dictionary (raising `KeyError` for any other
scheme) and reassemble scheme, network location and path, dropping
query and fragment. -/
def ws_to_http (url : List Char) : WsResult :=
  match urlsplit url with
  | none => WsResult.valueError
  | some parts =>
    match wsSchemeMap parts.scheme with
    | none => WsResult.keyError
    | some scheme => WsResult.ok (scheme ++ "://".data ++ parts.netloc ++ parts.path)

/-! ### litPrefix -/

theorem litPrefix_eq_true : ∀ {a b : List Char}, litPrefix a b = true ↔ a <+: b := by
  intro a
  induction a with
  | nil => intro b; simp [litPrefix]
  | cons p ps ih =>
    intro b
    cases b with
    | nil => simp [litPrefix]
    | cons c cs =>
      simp only [litPrefix, Bool.and_eq_true, beq_iff_eq, List.cons_prefix_cons]
      exact and_congr Iff.rfl ih

/-! ### Basic lemmas about captures -/

theorem getCap_setCap_self (g : GName) (v : List Char) (c : Caps) :
    getCap g (setCap g v c) = some v := by
  cases g <;> rfl

theorem getCap_setCap_of_ne (g g' : GName) (v : List Char) (c : Caps)
    (h : g ≠ g') : getCap g' (setCap g v c) = getCap g' c := by
  cases g <;> cases g' <;> simp_all [getCap, setCap]

/-! ### The greedy backtracking step -/

/-- Inversion for `tryG`: a successful result captures the longest
prefix length `j` (between `minLen` and `k`) for which the rest of the
pattern matches; all longer attempts fail. -/
theorem tryG_eq_some (g : GName) (next : List Char → Option Caps) (s : List Char)
    (minLen : Nat) :
    ∀ k caps', tryG g next s minLen k = some caps' →
    ∃ j caps, j ≤ k ∧ minLen ≤ j ∧ next (s.drop j) = some caps ∧
      caps' = setCap g (s.take j) caps ∧
      ∀ j', j < j' → j' ≤ k → next (s.drop j') = none := by
  intro k
  induction k with
  | zero =>
    intro caps' h
    simp only [tryG] at h
    split at h
    · rcases Option.map_eq_some'.mp h with ⟨caps, hn, hc⟩
      refine ⟨0, caps, Nat.le_refl 0, by omega, by simpa using hn, by simp [← hc], ?_⟩
      intro j' h1 h2
      omega
    · exact absurd h (by simp)
  | succ k ih =>
    intro caps' h
    simp only [tryG] at h
    split at h
    · exact absurd h (by simp)
    · rename_i hge
      cases hn : next (s.drop (k + 1)) with
      | some caps =>
        rw [hn] at h
        simp only [Option.some.injEq] at h
        refine ⟨k + 1, caps, Nat.le_refl _, by omega, hn, h.symm, ?_⟩
        intro j' h1 h2
        omega
      | none =>
        rw [hn] at h
        rcases ih caps' h with ⟨j, caps, hjk, hmin, hnext, hcaps, hmax⟩
        refine ⟨j, caps, by omega, hmin, hnext, hcaps, ?_⟩
        intro j' h1 h2
        rcases Nat.lt_or_ge j' (k + 1) with h3 | h3
        · exact hmax j' h1 (by omega)
        · have hj' : j' = k + 1 := by omega
          rw [hj']
          exact hn

/-! ### takeWhile helpers -/

theorem len_takeWhile_le {α : Type} (p : α → Bool) (s : List α) :
    (s.takeWhile p).length ≤ s.length := by
  induction s with
  | nil => simp
  | cons x xs ih =>
    by_cases hp : p x
    · simp only [List.takeWhile_cons_of_pos hp, List.length_cons]
      omega
    · simp [List.takeWhile_cons_of_neg hp]

theorem mem_take_of_le_takeWhile {α : Type} (p : α → Bool) :
    ∀ (s : List α) (j : Nat), j ≤ (s.takeWhile p).length →
    ∀ c ∈ s.take j, p c = true := by
  intro s
  induction s with
  | nil => intro j _ c hc; simp at hc
  | cons x xs ih =>
    intro j hj c hc
    by_cases hp : p x
    · rw [List.takeWhile_cons_of_pos hp] at hj
      cases j with
      | zero => simp at hc
      | succ j =>
        rw [List.take_succ_cons] at hc
        rcases List.mem_cons.mp hc with h1 | h1
        · rw [h1]; exact hp
        · exact ih j (by simpa using hj) c h1
    · rw [List.takeWhile_cons_of_neg hp] at hj
      have hz : j = 0 := by simpa using hj
      rw [hz] at hc
      simp at hc

/-! ### Pattern invariants from the source template -/

/-- Every `port` group produced by the template parser is a digits
group: the only substitution producing the name `port` is
`(?P<port>\d+)`. -/
theorem parseTemplateF_port :
    ∀ fuel t its, parseTemplateF fuel t = some its →
    ∀ k, TItem.grp GName.port k ∈ its → k = GKind.digitPlus := by
  intro fuel
  induction fuel with
  | zero =>
    intro t its h k hk
    cases t with
    | nil =>
      simp only [parseTemplateF, Option.some.injEq] at h
      rw [← h] at hk
      simp at hk
    | cons c rest => simp [parseTemplateF] at h
  | succ fuel ih =>
    intro t its h k hk
    cases t with
    | nil =>
      simp only [parseTemplateF, Option.some.injEq] at h
      rw [← h] at hk
      simp at hk
    | cons c rest =>
      simp only [parseTemplateF] at h
      split at h
      · split at h
        · rcases Option.map_eq_some'.mp h with ⟨its', hp, heq⟩
          rw [← heq] at hk
          rcases List.mem_cons.mp hk with h1 | h1
          · simp at h1
          · exact ih _ _ hp k h1
        · split at h
          · rcases Option.map_eq_some'.mp h with ⟨its', hp, heq⟩
            rw [← heq] at hk
            rcases List.mem_cons.mp hk with h1 | h1
            · simp only [TItem.grp.injEq] at h1
              exact h1.2
            · exact ih _ _ hp k h1
          · split at h
            · rcases Option.map_eq_some'.mp h with ⟨its', hp, heq⟩
              rw [← heq] at hk
              rcases List.mem_cons.mp hk with h1 | h1
              · simp at h1
              · exact ih _ _ hp k h1
            · exact absurd h (by simp)
      · split at h
        · rcases Option.map_eq_some'.mp h with ⟨its', hp, heq⟩
          rw [← heq] at hk
          rcases List.mem_cons.mp hk with h1 | h1
          · simp at h1
          · exact ih _ _ hp k h1
        · exact absurd h (by simp)

/-- Unpack `parseSourceTemplate` into the underlying template parse. -/
theorem parseSourceTemplate_eq_some (st : List Char) (its : List TItem)
    (h : parseSourceTemplate st = some its) :
    parseTemplateF st.length st = some its := by
  simp only [parseSourceTemplate] at h
  split at h
  · exact absurd h (by simp)
  · rename_i its' hp
    split at h
    · simp only [Option.some.injEq] at h
      rw [hp, h]
    · exact absurd h (by simp)

/-- A successful match records only digit strings (nonempty) in a
capture group that all pattern items agree is a digits group. -/
theorem reMatch_port_digits :
    ∀ its, (∀ k, TItem.grp GName.port k ∈ its → k = GKind.digitPlus) →
    ∀ s caps, reMatch its s = some caps →
    ∀ v, getCap GName.port caps = some v →
    v ≠ [] ∧ ∀ c ∈ v, c.isDigit = true := by
  intro its
  induction its with
  | nil =>
    intro _ s caps h v hv
    simp only [reMatch, Option.some.injEq] at h
    rw [← h] at hv
    simp [getCap, Caps.empty] at hv
  | cons it its ih =>
    intro hw s caps h v hv
    have hw' : ∀ k, TItem.grp GName.port k ∈ its → k = GKind.digitPlus :=
      fun k hk => hw k (List.mem_cons_of_mem _ hk)
    cases it with
    | lit c =>
      cases s with
      | nil => simp [reMatch] at h
      | cons x xs =>
        simp only [reMatch] at h
        split at h
        · exact ih hw' xs caps h v hv
        · exact absurd h (by simp)
    | grp g kind =>
      cases kind with
      | dotStar =>
        by_cases hg : g = GName.port
        · rw [hg] at h
          have hck := hw GKind.dotStar (by simp [hg])
          exact absurd hck (by decide)
        · simp only [reMatch] at h
          rcases tryG_eq_some g (reMatch its) s 0 (maxDot s) caps h with
            ⟨j, caps0, _, _, hnext, hcaps, _⟩
          rw [hcaps, getCap_setCap_of_ne g GName.port _ _ hg] at hv
          exact ih hw' _ caps0 hnext v hv
      | digitPlus =>
        simp only [reMatch] at h
        rcases tryG_eq_some g (reMatch its) s 1 (maxDigit s) caps h with
          ⟨j, caps0, hjk, hmin, hnext, hcaps, _⟩
        by_cases hg : g = GName.port
        · rw [hg] at hcaps
          rw [hcaps, getCap_setCap_self] at hv
          have hvv : v = s.take j := by simpa using hv.symm
          constructor
          · have hls : maxDigit s ≤ s.length :=
              len_takeWhile_le Char.isDigit s
            have hlen : (s.take j).length = j := by
              rw [List.length_take]
              omega
            intro hnil
            rw [hvv] at hnil
            rw [hnil] at hlen
            simp at hlen
            omega
          · intro c hc
            rw [hvv] at hc
            exact mem_take_of_le_takeWhile Char.isDigit s j hjk c hc
        · rw [hcaps, getCap_setCap_of_ne g GName.port _ _ hg] at hv
          exact ih hw' _ caps0 hnext v hv

/-! ### Search lemmas -/

/-- A successful search comes from a match at some offset: the matched
text is a suffix of the input. -/
theorem reSearch_eq_some (its : List TItem) :
    ∀ s caps, reSearch its s = some caps →
    ∃ t, t <:+ s ∧ reMatch its t = some caps := by
  intro s
  induction s with
  | nil =>
    intro caps h
    exact ⟨[], List.suffix_refl _, h⟩
  | cons x xs ih =>
    intro caps h
    simp only [reSearch] at h
    cases hm : reMatch its (x :: xs) with
    | some c =>
      rw [hm] at h
      simp only [Option.some.injEq] at h
      rw [← h]
      exact ⟨x :: xs, List.suffix_refl _, hm⟩
    | none =>
      rw [hm] at h
      rcases ih caps h with ⟨t, ht, hmt⟩
      exact ⟨t, ht.trans (List.suffix_cons x xs), hmt⟩

/-- If the pattern matches at any offset, the search succeeds. -/
theorem reSearch_of_suffix_match (its : List TItem) :
    ∀ s t caps0, t <:+ s → reMatch its t = some caps0 →
    ∃ caps, reSearch its s = some caps := by
  intro s
  induction s with
  | nil =>
    intro t caps0 ht hm
    have ht' : t = [] := List.suffix_nil.mp ht
    rw [ht'] at hm
    exact ⟨caps0, hm⟩
  | cons x xs ih =>
    intro t caps0 ht hm
    cases hx : reMatch its (x :: xs) with
    | some c => exact ⟨c, by simp [reSearch, hx]⟩
    | none =>
      rcases List.suffix_cons_iff.mp ht with h1 | h1
      · rw [h1] at hm
        rw [hm] at hx
        exact absurd hx (by simp)
      · rcases ih t caps0 h1 hm with ⟨caps, hs⟩
        exact ⟨caps, by simp [reSearch, hx, hs]⟩

/-! ### Formatting refinement: `str.format` agrees with the
specification-level substitution on simple target templates -/

theorem pyFormatF_eq_substSegs (caps : Caps) :
    ∀ fuel tt segs, parseTargetF fuel tt = some segs →
    pyFormatF fuel caps tt = substSegs caps segs := by
  intro fuel
  induction fuel with
  | zero =>
    intro tt segs h
    cases tt with
    | nil =>
      simp only [parseTargetF, Option.some.injEq] at h
      rw [← h]
      rfl
    | cons c rest => simp [parseTargetF] at h
  | succ fuel ih =>
    intro tt segs h
    cases tt with
    | nil =>
      simp only [parseTargetF, Option.some.injEq] at h
      rw [← h]
      rfl
    | cons c rest =>
      simp only [parseTargetF] at h
      by_cases hc : c = '{'
      · rw [if_pos hc] at h
        rw [hc]
        by_cases h1 : litPrefix serverField rest
        · rw [if_pos h1] at h
          rcases Option.map_eq_some'.mp h with ⟨segs', hp, heq⟩
          obtain ⟨rest', hr⟩ := litPrefix_eq_true.mp h1
          rw [← hr] at hp ⊢
          have hd : (serverField ++ rest').drop 7 = rest' :=
            List.drop_left' (by rfl)
          rw [hd] at hp
          have hpy : pyFormatF (fuel + 1) caps ('{' :: (serverField ++ rest')) =
              (match getCap GName.server caps with
               | some v => Option.map (fun out => v ++ out) (pyFormatF fuel caps rest')
               | none => none) := rfl
          rw [← heq, hpy, ih rest' segs' hp]
          cases hg : getCap GName.server caps with
          | none => simp [substSegs, hg]
          | some v =>
            cases hs : substSegs caps segs' with
            | none => simp [substSegs, hg, hs]
            | some out => simp [substSegs, hg, hs]
        · rw [if_neg h1] at h
          by_cases h2 : litPrefix portField rest
          · rw [if_pos h2] at h
            rcases Option.map_eq_some'.mp h with ⟨segs', hp, heq⟩
            obtain ⟨rest', hr⟩ := litPrefix_eq_true.mp h2
            rw [← hr] at hp ⊢
            have hd : (portField ++ rest').drop 5 = rest' :=
              List.drop_left' (by rfl)
            rw [hd] at hp
            have hns : ¬ litPrefix serverField (portField ++ rest') := by
              intro hcon
              rcases litPrefix_eq_true.mp hcon with ⟨t, ht⟩
              simp [serverField, portField, List.cons_append] at ht
            have hpy : pyFormatF (fuel + 1) caps ('{' :: (portField ++ rest')) =
                (match getCap GName.port caps with
                 | some v => Option.map (fun out => v ++ out) (pyFormatF fuel caps rest')
                 | none => none) := rfl
            rw [← heq, hpy, ih rest' segs' hp]
            cases hg : getCap GName.port caps with
            | none => simp [substSegs, hg]
            | some v =>
              cases hs : substSegs caps segs' with
              | none => simp [substSegs, hg, hs]
              | some out => simp [substSegs, hg, hs]
          · rw [if_neg h2] at h
            by_cases h3 : litPrefix uuidField rest
            · rw [if_pos h3] at h
              rcases Option.map_eq_some'.mp h with ⟨segs', hp, heq⟩
              obtain ⟨rest', hr⟩ := litPrefix_eq_true.mp h3
              rw [← hr] at hp ⊢
              have hd : (uuidField ++ rest').drop 5 = rest' :=
                List.drop_left' (by rfl)
              rw [hd] at hp
              have hpy : pyFormatF (fuel + 1) caps ('{' :: (uuidField ++ rest')) =
                  (match getCap GName.uuid caps with
                   | some v => Option.map (fun out => v ++ out) (pyFormatF fuel caps rest')
                   | none => none) := rfl
              rw [← heq, hpy, ih rest' segs' hp]
              cases hg : getCap GName.uuid caps with
              | none => simp [substSegs, hg]
              | some v =>
                cases hs : substSegs caps segs' with
                | none => simp [substSegs, hg, hs]
                | some out => simp [substSegs, hg, hs]
            · rw [if_neg h3] at h
              exact absurd h (by simp)
      · rw [if_neg hc] at h
        by_cases hc2 : c = '}'
        · rw [if_pos hc2] at h
          exact absurd h (by simp)
        · rw [if_neg hc2] at h
          rcases Option.map_eq_some'.mp h with ⟨segs', hp, heq⟩
          have hpy : pyFormatF (fuel + 1) caps (c :: rest) =
              Option.map (fun out => c :: out) (pyFormatF fuel caps rest) := by
            simp only [pyFormatF]
            rw [if_neg hc, if_neg hc2]
          rw [← heq, hpy, ih rest segs' hp]
          cases hs : substSegs caps segs' with
          | none => simp [substSegs, hs]
          | some out => simp [substSegs, hs]

/-- If the target template references a group with no capture, the
substitution has no result. -/
theorem substSegs_none_of_missing (caps : Caps) :
    ∀ segs g, TSeg.ph g ∈ segs → getCap g caps = none →
    substSegs caps segs = none := by
  intro segs
  induction segs with
  | nil => intro g hg _; simp at hg
  | cons seg segs ih =>
    intro g hg hc
    cases seg with
    | lit c =>
      rcases List.mem_cons.mp hg with h1 | h1
      · simp at h1
      · simp [substSegs, ih g h1 hc]
    | ph g' =>
      by_cases hgg : g' = g
      · rw [hgg]
        simp [substSegs, hc]
      · rcases List.mem_cons.mp hg with h1 | h1
        · simp only [TSeg.ph.injEq] at h1
          exact absurd h1.symm hgg
        · have hrec := ih g h1 hc
          cases hg' : getCap g' caps with
          | none => simp [substSegs, hg']
          | some v => simp [substSegs, hg', hrec]

/-- Literal characters of a parsed target template are never braces. -/
theorem parseTargetF_lit_safe :
    ∀ fuel tt segs, parseTargetF fuel tt = some segs →
    ∀ c, TSeg.lit c ∈ segs → c ≠ '{' ∧ c ≠ '}' := by
  intro fuel
  induction fuel with
  | zero =>
    intro tt segs h c hc
    cases tt with
    | nil =>
      simp only [parseTargetF, Option.some.injEq] at h
      rw [← h] at hc
      simp at hc
    | cons x rest => simp [parseTargetF] at h
  | succ fuel ih =>
    intro tt segs h c hc
    cases tt with
    | nil =>
      simp only [parseTargetF, Option.some.injEq] at h
      rw [← h] at hc
      simp at hc
    | cons x rest =>
      simp only [parseTargetF] at h
      by_cases hx : x = '{'
      · rw [if_pos hx] at h
        by_cases h1 : litPrefix serverField rest
        · rw [if_pos h1] at h
          rcases Option.map_eq_some'.mp h with ⟨segs', hp, heq⟩
          rw [← heq] at hc
          rcases List.mem_cons.mp hc with h2 | h2
          · simp at h2
          · exact ih _ segs' hp c h2
        · rw [if_neg h1] at h
          by_cases h2 : litPrefix portField rest
          · rw [if_pos h2] at h
            rcases Option.map_eq_some'.mp h with ⟨segs', hp, heq⟩
            rw [← heq] at hc
            rcases List.mem_cons.mp hc with h3 | h3
            · simp at h3
            · exact ih _ segs' hp c h3
          · rw [if_neg h2] at h
            by_cases h3 : litPrefix uuidField rest
            · rw [if_pos h3] at h
              rcases Option.map_eq_some'.mp h with ⟨segs', hp, heq⟩
              rw [← heq] at hc
              rcases List.mem_cons.mp hc with h4 | h4
              · simp at h4
              · exact ih _ segs' hp c h4
            · rw [if_neg h3] at h
              exact absurd h (by simp)
      · rw [if_neg hx] at h
        by_cases hx2 : x = '}'
        · rw [if_pos hx2] at h
          exact absurd h (by simp)
        · rw [if_neg hx2] at h
          rcases Option.map_eq_some'.mp h with ⟨segs', hp, heq⟩
          rw [← heq] at hc
          rcases List.mem_cons.mp hc with h1 | h1
          · simp only [TSeg.lit.injEq] at h1
            rw [h1]
            exact ⟨hx, hx2⟩
          · exact ih _ segs' hp c h1

/-- If neither the template literals nor the captured substrings
contain braces, the substituted output contains no braces. -/
theorem substSegs_no_brace (caps : Caps) :
    ∀ segs out, substSegs caps segs = some out →
    (∀ c, TSeg.lit c ∈ segs → c ≠ '{' ∧ c ≠ '}') →
    (∀ g v, getCap g caps = some v → ∀ c ∈ v, c ≠ '{' ∧ c ≠ '}') →
    ∀ c ∈ out, c ≠ '{' ∧ c ≠ '}' := by
  intro segs
  induction segs with
  | nil =>
    intro out h _ _ c hc
    simp only [substSegs, Option.some.injEq] at h
    rw [← h] at hc
    simp at hc
  | cons seg segs ih =>
    intro out h hlit hcap c hc
    cases seg with
    | lit c' =>
      simp only [substSegs] at h
      rcases Option.map_eq_some'.mp h with ⟨out', hs, heq⟩
      rw [← heq] at hc
      rcases List.mem_cons.mp hc with h1 | h1
      · rw [h1]
        exact hlit c' (List.mem_cons_self _ _)
      · exact ih out' hs (fun c h => hlit c (List.mem_cons_of_mem _ h)) hcap c h1
    | ph g =>
      simp only [substSegs] at h
      cases hg : getCap g caps with
      | none => rw [hg] at h; exact absurd h (by simp)
      | some v =>
        rw [hg] at h
        rcases Option.map_eq_some'.mp h with ⟨out', hs, heq⟩
        rw [← heq] at hc
        rcases List.mem_append.mp hc with h1 | h1
        · exact hcap g v hg c h1
        · exact ih out' hs (fun c h => hlit c (List.mem_cons_of_mem _ h)) hcap c h1

/-! ### `str.replace` on strings without occurrences -/

theorem replFuel_unchanged (pat rep : List Char) :
    ∀ fuel l, ¬ pat <:+: l → replFuel pat rep fuel l = l := by
  intro fuel
  induction fuel with
  | zero => intro l _; rfl
  | succ fuel ih =>
    intro l h
    cases l with
    | nil => rfl
    | cons c tl =>
      have hp : litPrefix pat (c :: tl) = false := by
        cases hlp : litPrefix pat (c :: tl) with
        | false => rfl
        | true => exact absurd (litPrefix_eq_true.mp hlp).isInfix h
      simp only [replFuel, hp, Bool.and_false, Bool.false_eq_true, if_false]
      have htl : ¬ pat <:+: tl := fun hinf => h (List.infix_cons hinf)
      rw [ih tl htl]

/-! ### urlsplit helpers -/

theorem splitOnFirst_append (sep : Char) (b : List Char) :
    ∀ a, sep ∉ a → splitOnFirst sep (a ++ sep :: b) = some (a, b) := by
  intro a
  induction a with
  | nil =>
    intro _
    simp [splitOnFirst]
  | cons c a ih =>
    intro h
    have hc : ¬ (c = sep) := by
      intro hh
      exact h (by rw [hh]; exact List.mem_cons_self _ _)
    rw [List.cons_append]
    simp only [splitOnFirst, if_neg hc]
    rw [ih (fun hm => h (List.mem_cons_of_mem _ hm))]
    rfl

theorem takeWhile_append_all (p : Char → Bool) (b : List Char) :
    ∀ a, (∀ c ∈ a, p c = true) →
    (a ++ b).takeWhile p = a ++ b.takeWhile p := by
  intro a
  induction a with
  | nil => intro _; rfl
  | cons c a ih =>
    intro h
    rw [List.cons_append, List.takeWhile_cons_of_pos (h c (List.mem_cons_self _ _)),
      ih (fun c hc => h c (List.mem_cons_of_mem _ hc)), List.cons_append]

theorem dropWhile_append_all (p : Char → Bool) (b : List Char) :
    ∀ a, (∀ c ∈ a, p c = true) →
    (a ++ b).dropWhile p = b.dropWhile p := by
  intro a
  induction a with
  | nil => intro _; rfl
  | cons c a ih =>
    intro h
    rw [List.cons_append, List.dropWhile_cons_of_pos (h c (List.mem_cons_self _ _)),
      ih (fun c hc => h c (List.mem_cons_of_mem _ hc))]

/-- `urlsplit` on a URL assembled from scheme, network location, path,
query and fragment recovers exactly these components (scheme
lowercased), provided the network location does not trip the IPv6
bracket validation. -/
theorem urlsplit_concat (s netloc path q f : List Char)
    (hs1 : s ≠ [])
    (hs2 : ∀ c ∈ s, isSchemeChar c = true)
    (hn : ∀ c ∈ netloc, notNetlocEnd c = true)
    (hbk : '[' ∈ netloc ↔ ']' ∈ netloc)
    (hp1 : path = [] ∨ ∃ p', path = '/' :: p')
    (hp2 : ∀ c ∈ path, c ≠ '?' ∧ c ≠ '#')
    (hq : ∀ c ∈ q, c ≠ '#') :
    urlsplit (s ++ ':' :: '/' :: '/' :: (netloc ++ (path ++ '?' :: (q ++ '#' :: f)))) =
      some ⟨s.map Char.toLower, netloc, path, q, f⟩ := by
  have hnotin : ':' ∉ s := fun hm => absurd (hs2 ':' hm) (by decide)
  have hsp : splitOnFirst ':'
      (s ++ ':' :: ('/' :: '/' :: (netloc ++ (path ++ '?' :: (q ++ '#' :: f))))) =
      some (s, '/' :: '/' :: (netloc ++ (path ++ '?' :: (q ++ '#' :: f)))) :=
    splitOnFirst_append ':' _ s hnotin
  have he : s.isEmpty = false := by
    cases s with
    | nil => exact absurd rfl hs1
    | cons c cs => rfl
  have hall : s.all isSchemeChar = true := List.all_eq_true.mpr hs2
  have hcond : (!s.isEmpty && s.all isSchemeChar &&
      (('/' :: '/' :: (netloc ++ (path ++ '?' :: (q ++ '#' :: f)))).isEmpty ||
        ('/' :: '/' :: (netloc ++ (path ++ '?' :: (q ++ '#' :: f)))).any
          (fun c => !c.isDigit))) = true := by
    rw [he, hall]
    rfl
  have htw : (netloc ++ (path ++ '?' :: (q ++ '#' :: f))).takeWhile notNetlocEnd
      = netloc := by
    rw [takeWhile_append_all notNetlocEnd _ netloc hn]
    have hz : (path ++ '?' :: (q ++ '#' :: f)).takeWhile notNetlocEnd = [] := by
      rcases hp1 with hpe | ⟨p', hpc⟩
      · rw [hpe, List.nil_append, List.takeWhile_cons_of_neg (by decide)]
      · rw [hpc, List.cons_append, List.takeWhile_cons_of_neg (by decide)]
    rw [hz, List.append_nil]
  have hdw : (netloc ++ (path ++ '?' :: (q ++ '#' :: f))).dropWhile notNetlocEnd
      = path ++ '?' :: (q ++ '#' :: f) := by
    rw [dropWhile_append_all notNetlocEnd _ netloc hn]
    rcases hp1 with hpe | ⟨p', hpc⟩
    · rw [hpe, List.nil_append, List.dropWhile_cons_of_neg (by decide)]
    · rw [hpc, List.cons_append, List.dropWhile_cons_of_neg (by decide)]
  have hre : path ++ '?' :: (q ++ '#' :: f) = (path ++ '?' :: q) ++ '#' :: f := by
    rw [List.append_assoc, List.cons_append]
  have hdw2 : (netloc ++ (path ++ '?' :: (q ++ '#' :: f))).dropWhile notNetlocEnd
      = (path ++ '?' :: q) ++ '#' :: f := hdw.trans hre
  have hmemf : '#' ∉ path ++ '?' :: q := by
    intro hm
    rcases List.mem_append.mp hm with h1 | h1
    · exact (hp2 '#' h1).2 rfl
    · rcases List.mem_cons.mp h1 with h2 | h2
      · exact absurd h2 (by decide)
      · exact hq '#' h2 rfl
  have hfr : splitOnFirst '#' ((path ++ '?' :: q) ++ '#' :: f)
      = some (path ++ '?' :: q, f) :=
    splitOnFirst_append '#' f _ hmemf
  have hmemq : '?' ∉ path := fun hm => (hp2 '?' hm).1 rfl
  have hqr : splitOnFirst '?' (path ++ '?' :: q) = some (path, q) :=
    splitOnFirst_append '?' q path hmemq
  have htk : List.take 2 ('/' :: '/' :: (netloc ++ (path ++ '?' :: (q ++ '#' :: f))))
      = ['/', '/'] := rfl
  have hdr : List.drop 2 ('/' :: '/' :: (netloc ++ (path ++ '?' :: (q ++ '#' :: f))))
      = netloc ++ (path ++ '?' :: (q ++ '#' :: f)) := rfl
  have hbkn : ¬ (('[' ∈ netloc ∧ ']' ∉ netloc) ∨ (']' ∈ netloc ∧ '[' ∉ netloc)) := by
    intro hcase
    rcases hcase with ⟨ha, hb⟩ | ⟨ha, hb⟩
    · exact hb (hbk.mp ha)
    · exact hb (hbk.mpr ha)
  simp only [urlsplit, hsp]
  rw [if_pos hcond]
  dsimp only
  rw [htk, if_pos rfl, hdr, htw, if_neg hbkn, hdw2]
  dsimp only
  rw [hfr]
  dsimp only
  rw [hqr]

/-! ### Claim theorems -/

/-- C10: `ws_to_http` maps a URL with scheme `ws` to `http://` and
scheme `wss` to `https://` followed by the original network location
and path; for a URL whose scheme is neither `ws` nor `wss` the
dictionary lookup raises a `KeyError`; the query string and the
fragment are dropped from the output.  The single equation covers all
three scheme cases through `wsSchemeMap`.  The hypothesis `hbk`
excludes network locations with unbalanced IPv6 brackets, on which
`urlsplit` raises `ValueError` before the scheme lookup and
`ws_to_http` therefore neither returns nor raises a `KeyError`. -/
theorem c10_ws_to_http_scheme_cases (s netloc path q f : List Char)
    (hs1 : s ≠ [])
    (hs2 : ∀ c ∈ s, isSchemeChar c = true)
    (hn : ∀ c ∈ netloc, notNetlocEnd c = true)
    (hbk : '[' ∈ netloc ↔ ']' ∈ netloc)
    (hp1 : path = [] ∨ ∃ p', path = '/' :: p')
    (hp2 : ∀ c ∈ path, c ≠ '?' ∧ c ≠ '#')
    (hq : ∀ c ∈ q, c ≠ '#') :
    ws_to_http (s ++ ':' :: '/' :: '/' :: (netloc ++ (path ++ '?' :: (q ++ '#' :: f)))) =
      (match wsSchemeMap (s.map Char.toLower) with
       | none => WsResult.keyError
       | some scheme => WsResult.ok (scheme ++ "://".data ++ netloc ++ path)) := by
  have hu := urlsplit_concat s netloc path q f hs1 hs2 hn hbk hp1 hp2 hq
  simp only [ws_to_http, hu]

/-- Witness for C10 at a concrete URL with query and fragment. -/
theorem c10_witness :
    ws_to_http (("ws".data) ++ ':' :: '/' :: '/' ::
        (("host:17070".data) ++ (("/path".data) ++ '?' :: (("x=1".data) ++ '#' :: ("frag".data)))))
      = WsResult.ok ("http://host:17070/path".data) := by
  have h := c10_ws_to_http_scheme_cases ("ws".data) ("host:17070".data) ("/path".data)
    ("x=1".data) ("frag".data) (by decide) (by decide) (by decide) (by decide)
    (Or.inr ⟨"path".data, rfl⟩) (by decide) (by decide)
  exact h.trans (by decide)

/-- C1 (amended): when the derived pattern matches the path and the
target template is a simple placeholder template, `get_juju_api_url`
returns exactly the target template with every placeholder replaced by
its captured substring (refinement of `str.format` by the
specification-level substitution); when additionally the captured
substrings contain no brace characters, no placeholder token remains
in the returned URL.  The brace proviso is necessary: see the
counterexample. -/
theorem c1_get_juju_api_url_substitutes (path st tt d : String)
    (its : List TItem) (caps : Caps) (segs : List TSeg)
    (h1 : parseSourceTemplate st.data = some its)
    (h2 : reSearch its path.data = some caps)
    (h3 : parseTarget tt.data = some segs) :
    get_juju_api_url path st tt d = Option.map String.mk (substSegs caps segs) ∧
    ((∀ g v, getCap g caps = some v → ∀ c ∈ v, c ≠ '{' ∧ c ≠ '}') →
      ∀ out, substSegs caps segs = some out → ∀ g, ¬ phText g <:+: out) := by
  have h3' : parseTargetF tt.data.length tt.data = some segs := h3
  constructor
  · simp only [get_juju_api_url, h1, h2]
    rw [show pyFormat caps tt.data = substSegs caps segs from
      pyFormatF_eq_substSegs caps tt.data.length tt.data segs h3']
  · intro hcap out hout g hinf
    have hlits : ∀ c, TSeg.lit c ∈ segs → c ≠ '{' ∧ c ≠ '}' :=
      fun c hc => parseTargetF_lit_safe tt.data.length tt.data segs h3' c hc
    have hnb := substSegs_no_brace caps segs out hout hlits hcap
    have hbr : '{' ∈ phText g := by cases g <;> decide
    exact (hnb '{' (hinf.subset hbr)).1 rfl

/-- Witness for C1 (amended) at Example 1 of the specification. -/
theorem c1_witness :
    get_juju_api_url ("/api/10.0.0.5/17070/abcd-1234") ("/api/$server/$port/$uuid")
      ("wss://{server}:{port}/environment/{uuid}/api") ("x")
      = some ("wss://10.0.0.5:17070/environment/abcd-1234/api") := by
  have h := c1_get_juju_api_url_substitutes ("/api/10.0.0.5/17070/abcd-1234")
    ("/api/$server/$port/$uuid") ("wss://{server}:{port}/environment/{uuid}/api")
    ("x") _ _ _ rfl rfl rfl
  exact h.1.trans (by decide)

/-- C1 is false as frozen: a matching path whose captured substring
itself contains brace text makes the returned URL retain a placeholder
token.  Here the uuid capture is the literal text rendered by
`phText GName.port`, and the token survives in the output. -/
theorem c1_counterexample :
    get_juju_api_url ("/api/h/1/{port}") ("/api/$server/$port/$uuid")
      ("wss://{server}:{port}/x/{uuid}") ("d") = some ("wss://h:1/x/{port}") ∧
    ("{port}".data) <:+: ("wss://h:1/x/{port}".data) := by
  exact ⟨by decide, by decide⟩

/-- C2: whenever the derived pattern does not match the path,
`get_juju_api_url` returns exactly the given default and no exception
escapes (the result is `some default`, never `none`). -/
theorem c2_default_on_no_match (path st tt d : String) (its : List TItem)
    (h1 : parseSourceTemplate st.data = some its)
    (h2 : reSearch its path.data = none) :
    get_juju_api_url path st tt d = some d := by
  simp only [get_juju_api_url, h1, h2]

/-- Witness for C2 at Example 2 of the specification. -/
theorem c2_witness :
    get_juju_api_url ("/legacy/path") ("/api/$server/$port/$uuid")
      ("wss://{server}:{port}/environment/{uuid}/api") ("wss://fallback:17070/api")
      = some ("wss://fallback:17070/api") :=
  c2_default_on_no_match ("/legacy/path") ("/api/$server/$port/$uuid")
    ("wss://{server}:{port}/environment/{uuid}/api") ("wss://fallback:17070/api")
    _ rfl rfl

/-- C3 (amended): the fragment substituted for `$server` and `$uuid`
is the greedy `.*`: a successful match of a pattern headed by a
dot-star group captures the longest prefix (within the newline-free
range) for which the rest of the pattern still matches; every longer
attempt fails.  The specification's non-greedy, shortest-capture
reading is refuted by the counterexample. -/
theorem c3_dotStar_greedy (g : GName) (its : List TItem) (s : List Char)
    (caps' : Caps)
    (h : reMatch (TItem.grp g GKind.dotStar :: its) s = some caps') :
    ∃ j caps, j ≤ maxDot s ∧ reMatch its (s.drop j) = some caps ∧
      caps' = setCap g (s.take j) caps ∧
      ∀ j', j < j' → j' ≤ maxDot s → reMatch its (s.drop j') = none := by
  simp only [reMatch] at h
  rcases tryG_eq_some g (reMatch its) s 0 (maxDot s) caps' h with
    ⟨j, caps, hjk, _, hnext, hcaps, hmax⟩
  exact ⟨j, caps, hjk, hnext, hcaps, hmax⟩

/-- Witness for C3 (amended): the greedy characterisation applied to a
concrete match whose server capture is the longest split. -/
theorem c3_witness :
    ∃ j caps, j ≤ maxDot ("a/1/2/u".data) ∧
      reMatch [TItem.lit '/', TItem.grp GName.port GKind.digitPlus, TItem.lit '/',
        TItem.grp GName.uuid GKind.dotStar] (("a/1/2/u".data).drop j) = some caps ∧
      (⟨some ("a/1".data), some ("2".data), some ("u".data)⟩ : Caps)
        = setCap GName.server (("a/1/2/u".data).take j) caps ∧
      ∀ j', j < j' → j' ≤ maxDot ("a/1/2/u".data) →
        reMatch [TItem.lit '/', TItem.grp GName.port GKind.digitPlus, TItem.lit '/',
          TItem.grp GName.uuid GKind.dotStar] (("a/1/2/u".data).drop j') = none :=
  c3_dotStar_greedy GName.server
    [TItem.lit '/', TItem.grp GName.port GKind.digitPlus, TItem.lit '/',
      TItem.grp GName.uuid GKind.dotStar] ("a/1/2/u".data)
    ⟨some ("a/1".data), some ("2".data), some ("u".data)⟩ rfl

/-- C3 is false as frozen: on `/api/a/1/2/u` the engine captures
`a/1` for the server group although the split capturing the shorter
`a` also matches (exhibited by the `MatchSplit` derivation), so the
server capture is the longest, not the shortest, possible one. -/
theorem c3_counterexample :
    get_juju_api_url ("/api/a/1/2/u") ("/api/$server/$port/$uuid") ("{server}") ("d")
      = some ("a/1") ∧
    parseSourceTemplate ("/api/$server/$port/$uuid".data)
      = some [TItem.lit '/', TItem.lit 'a', TItem.lit 'p', TItem.lit 'i', TItem.lit '/',
          TItem.grp GName.server GKind.dotStar, TItem.lit '/',
          TItem.grp GName.port GKind.digitPlus, TItem.lit '/',
          TItem.grp GName.uuid GKind.dotStar] ∧
    MatchSplit [TItem.lit '/', TItem.lit 'a', TItem.lit 'p', TItem.lit 'i', TItem.lit '/',
        TItem.grp GName.server GKind.dotStar, TItem.lit '/',
        TItem.grp GName.port GKind.digitPlus, TItem.lit '/',
        TItem.grp GName.uuid GKind.dotStar]
      ("/api/a/1/2/u".data)
      ⟨some ("a".data), some ("1".data), some ("2/u".data)⟩ ∧
    ("a/1".data).length ≠ ("a".data).length := by
  refine ⟨by decide, by decide, ?_, by decide⟩
  have m1 : MatchSplit [] [] Caps.empty := MatchSplit.nil []
  have m2 : MatchSplit [TItem.grp GName.uuid GKind.dotStar] ("2/u".data)
      (setCap GName.uuid ("2/u".data) Caps.empty) := by
    have h := MatchSplit.dotStar GName.uuid [] ("2/u".data) [] Caps.empty
      (by decide) m1
    simpa using h
  have m3 := MatchSplit.lit '/' _ _ _ m2
  have m4 := MatchSplit.digitPlus GName.port _ ("1".data) ('/' :: "2/u".data) _
    (by decide) (by decide) m3
  have m5 := MatchSplit.lit '/' _ _ _ m4
  have m6 := MatchSplit.dotStar GName.server _ ("a".data)
    ('/' :: ("1".data ++ '/' :: "2/u".data)) _ (by decide) m5
  have m7 := MatchSplit.lit '/' _ _ _ m6
  have m8 := MatchSplit.lit 'i' _ _ _ m7
  have m9 := MatchSplit.lit 'p' _ _ _ m8
  have m10 := MatchSplit.lit 'a' _ _ _ m9
  have m11 := MatchSplit.lit '/' _ _ _ m10
  exact m11

/-- C4: every string captured by the `port` group of a pattern derived
from a source template is a nonempty sequence of decimal digits; the
`$port` placeholder can match nothing else, so a path with a non-digit
character in the port position cannot match there. -/
theorem c4_port_capture_all_digits (path st : String) (its : List TItem)
    (caps : Caps) (v : List Char)
    (h1 : parseSourceTemplate st.data = some its)
    (h2 : reSearch its path.data = some caps)
    (h3 : getCap GName.port caps = some v) :
    v ≠ [] ∧ ∀ c ∈ v, c.isDigit = true := by
  have hpt := parseSourceTemplate_eq_some st.data its h1
  have hw := parseTemplateF_port st.data.length st.data its hpt
  rcases reSearch_eq_some its path.data caps h2 with ⟨t, _, hm⟩
  exact reMatch_port_digits its hw t caps hm v h3

/-- Witness for C4 at a concrete matching path. -/
theorem c4_witness :
    ("7".data) ≠ [] ∧ ∀ c ∈ ("7".data), c.isDigit = true :=
  c4_port_capture_all_digits ("/api/h/7/u") ("/api/$server/$port/$uuid") _ _
    ("7".data) rfl rfl rfl

/-- C5: when the target template references a placeholder name that the
derived pattern did not capture, `get_juju_api_url` on a matching path
raises (`KeyError` from `str.format`, modelled as `none`): it never
returns a URL, partial or otherwise. -/
theorem c5_keyerror_on_missing_placeholder (path st tt d : String)
    (its : List TItem) (caps : Caps) (segs : List TSeg) (g : GName)
    (h1 : parseSourceTemplate st.data = some its)
    (h2 : reSearch its path.data = some caps)
    (h3 : parseTarget tt.data = some segs)
    (h4 : TSeg.ph g ∈ segs)
    (h5 : getCap g caps = none) :
    get_juju_api_url path st tt d = none := by
  have h3' : parseTargetF tt.data.length tt.data = some segs := h3
  simp only [get_juju_api_url, h1, h2]
  rw [show pyFormat caps tt.data = substSegs caps segs from
    pyFormatF_eq_substSegs caps tt.data.length tt.data segs h3']
  rw [substSegs_none_of_missing caps segs g h4 h5]
  rfl

/-- Witness for C5: a source template without `$uuid` paired with a
target template referencing the uuid placeholder. -/
theorem c5_witness :
    get_juju_api_url ("/api/h/1") ("/api/$server/$port")
      ("wss://{server}:{port}/environment/{uuid}/api") ("d") = none :=
  c5_keyerror_on_missing_placeholder ("/api/h/1") ("/api/$server/$port")
    ("wss://{server}:{port}/environment/{uuid}/api") ("d") _ _ _ GName.uuid
    rfl rfl rfl (by decide) rfl

/-- C6: the derived pattern is searched, not anchored: whenever it
matches at any offset (any suffix of the path), the search succeeds,
the returned captures come from a matching substring of the path, and
the translator proceeds to format the target template rather than
returning the default. -/
theorem c6_search_unanchored (pre suf : List Char) (st : String)
    (its : List TItem) (caps0 : Caps)
    (h1 : parseSourceTemplate st.data = some its)
    (h2 : reMatch its suf = some caps0) :
    ∃ caps, reSearch its (pre ++ suf) = some caps ∧
      (∃ t, t <:+ pre ++ suf ∧ reMatch its t = some caps) ∧
      ∀ tt d : String, get_juju_api_url (String.mk (pre ++ suf)) st tt d =
        Option.map String.mk (pyFormat caps tt.data) := by
  rcases reSearch_of_suffix_match its (pre ++ suf) suf caps0
    (List.suffix_append pre suf) h2 with ⟨caps, hs⟩
  refine ⟨caps, hs, reSearch_eq_some its (pre ++ suf) caps hs, ?_⟩
  intro tt d
  have hdata : (String.mk (pre ++ suf)).data = pre ++ suf := rfl
  simp only [get_juju_api_url, hdata, h1, hs]

/-- Witness for C6: a path with a leading `/ws` prefix before the
templated portion still translates. -/
theorem c6_witness :
    ∃ caps, reSearch [TItem.lit '/', TItem.lit 'a', TItem.lit 'p', TItem.lit 'i',
        TItem.lit '/', TItem.grp GName.server GKind.dotStar, TItem.lit '/',
        TItem.grp GName.port GKind.digitPlus, TItem.lit '/',
        TItem.grp GName.uuid GKind.dotStar]
      (("/ws".data) ++ ("/api/1.2.3.4/17070/uuid".data)) = some caps ∧
      (∃ t, t <:+ ("/ws".data) ++ ("/api/1.2.3.4/17070/uuid".data) ∧
        reMatch [TItem.lit '/', TItem.lit 'a', TItem.lit 'p', TItem.lit 'i',
          TItem.lit '/', TItem.grp GName.server GKind.dotStar, TItem.lit '/',
          TItem.grp GName.port GKind.digitPlus, TItem.lit '/',
          TItem.grp GName.uuid GKind.dotStar] t = some caps) ∧
      ∀ tt d : String,
        get_juju_api_url (String.mk (("/ws".data) ++ ("/api/1.2.3.4/17070/uuid".data)))
            ("/api/$server/$port/$uuid") tt d =
          Option.map String.mk (pyFormat caps tt.data) :=
  c6_search_unanchored ("/ws".data) ("/api/1.2.3.4/17070/uuid".data)
    ("/api/$server/$port/$uuid") _ _ rfl rfl

/-- C7 (amended): a source template containing no occurrence of
`$server`, `$port` or `$uuid` passes through the pattern construction
textually unchanged — in that sense an unrecognised dollar token is not
specially substituted.  (As the counterexample shows, a token merely
different from the three placeholders can still be rewritten when one
of them is a prefix of it, and the leftover `$` is a regex anchor, not
a literal, so the frozen claim's literal-match reading fails.) -/
theorem c7_no_token_no_substitution (st : List Char)
    (h1 : ¬ ("$server".data) <:+: st)
    (h2 : ¬ ("$port".data) <:+: st)
    (h3 : ¬ ("$uuid".data) <:+: st) :
    buildPattern st = st := by
  unfold buildPattern str_replace
  rw [replFuel_unchanged _ _ _ _ h1]
  rw [replFuel_unchanged _ _ _ _ h2]
  rw [replFuel_unchanged _ _ _ _ h3]

/-- Witness for C7 (amended) on a template with an unrecognised
dollar token. -/
theorem c7_witness : buildPattern ("/x/$foo/y".data) = ("/x/$foo/y".data) :=
  c7_no_token_no_substitution ("/x/$foo/y".data) (by decide) (by decide) (by decide)

/-- C7 is false as frozen: the dollar token `$serverZ` differs from all
three placeholders, yet the substitution rewrites its `$server` prefix,
and the path `helloZ`, which does not contain the token literally,
matches the resulting pattern. -/
theorem c7_counterexample :
    buildPattern ("$serverZ".data) = ("(?P<server>.*)Z".data) ∧
    buildPattern ("$serverZ".data) ≠ ("$serverZ".data) ∧
    get_juju_api_url ("helloZ") ("$serverZ") ("{server}") ("d") = some ("hello") ∧
    ¬ ("$serverZ".data) <:+: ("helloZ".data) :=
  ⟨by decide, by decide, by decide, by decide⟩

/-- C8: the translator is a pure function of its four string arguments:
two calls with equal arguments yield equal results.  In this embedding
the function is deterministic by construction and cannot mutate its
arguments. -/
theorem c8_deterministic (p p' st st' tt tt' d d' : String)
    (hp : p = p') (hst : st = st') (htt : tt = tt') (hd : d = d') :
    get_juju_api_url p st tt d = get_juju_api_url p' st' tt' d' := by
  rw [hp, hst, htt, hd]

/-- Witness for C8 at concrete arguments. -/
theorem c8_witness :
    get_juju_api_url ("/api/h/1/u") ("/api/$server/$port/$uuid") ("{server}") ("d")
      = get_juju_api_url ("/api/h/1/u") ("/api/$server/$port/$uuid") ("{server}") ("d") :=
  c8_deterministic _ _ _ _ _ _ _ _ rfl rfl rfl rfl

/-- C9: `json_decode_dict` returns the same sentinel `none` when the
decoder raises (invalid JSON) and when the decoded value is not
dict-like, making the two failure kinds indistinguishable from the
return value, and returns the decoded mapping itself whenever the
decoded value is an object. -/
theorem c9_json_decode_dict_collapses_failures (jd : String → Option JVal)
    (m1 m2 : String) (v : JVal)
    (h1 : jd m1 = none) (h2 : jd m2 = some v) (h3 : v.isObj = false) :
    json_decode_dict jd m1 = none ∧ json_decode_dict jd m2 = none ∧
    json_decode_dict jd m1 = json_decode_dict jd m2 ∧
    ∀ (m3 : String) (fields : List (String × JVal)),
      jd m3 = some (JVal.obj fields) → json_decode_dict jd m3 = some fields := by
  have ha : json_decode_dict jd m1 = none := by
    simp [json_decode_dict, h1]
  have hb : json_decode_dict jd m2 = none := by
    simp only [json_decode_dict, h2]
    cases v <;> simp_all [JVal.isObj]
  refine ⟨ha, hb, ha.trans hb.symm, ?_⟩
  intro m3 fields h
  simp [json_decode_dict, h]

/-- Witness for C9 with a concrete decoder exhibiting all three
outcomes. -/
theorem c9_witness :
    json_decode_dict
        (fun s => if s = ("bad") then none
          else if s = ("plain") then some (JVal.num 0)
          else some (JVal.obj [])) ("bad") = none ∧
      json_decode_dict
        (fun s => if s = ("bad") then none
          else if s = ("plain") then some (JVal.num 0)
          else some (JVal.obj [])) ("plain") = none ∧
      json_decode_dict
        (fun s => if s = ("bad") then none
          else if s = ("plain") then some (JVal.num 0)
          else some (JVal.obj [])) ("ok") = some [] := by
  have h := c9_json_decode_dict_collapses_failures
    (fun s => if s = ("bad") then none
      else if s = ("plain") then some (JVal.num 0)
      else some (JVal.obj [])) ("bad") ("plain") (JVal.num 0) rfl rfl rfl
  exact ⟨h.1, h.2.1, h.2.2.2 ("ok") [] rfl⟩

end Guiserver
